import Mathlib

/-!
A verification development for the podstr repository's OP3 analytics
aggregation (`useOP3Analytics` in `src/hooks/useUploadFile.ts`), the OP3
URL-prefix helpers (`addOP3Prefix`, `removeOP3Prefix`) and the MIME-type
correction helper (`ensureCorrectMimeType`).

Modelling conventions:
* JavaScript `Map`s are modelled as insertion-ordered association lists
  (`List (key × value)`); `Map.set` on an existing key updates in place,
  on a fresh key appends at the end, exactly as JS `Map` iteration order
  behaves.
* JavaScript `Set`s are modelled as insertion-ordered duplicate-free lists.
* `Array.prototype.sort` with comparator `(a, b) => b.count - a.count` is a
  stable sort descending by count; it is modelled by `List.insertionSort`
  with the relation `fun a b => count b ≤ count a`, which is stable.
* JS string-falsiness (`x || y`, `if (x)`) is modelled by `jsOr` / `truthy`:
  `undefined` and the empty string are falsy.
* Timestamps: `new Date(s).getTime()` (host-environment ISO-8601 parsing) is
  an explicit parameter `parseTime : String → Int` producing epoch
  milliseconds; `s.split('T')[0]` is `dateOf`.
* JS floating-point percentages are modelled exactly in `ℚ`.
* URL strings for the OP3 prefix helpers are modelled as `List Char`.
-/

namespace Podstr

/-- The chart window selector of `useOP3Analytics(timeRange)`. -/
inductive TimeRange
  | d7 | d30 | d90 | month
deriving DecidableEq

/-- One download row of the OP3 downloads API (interface `DownloadRow`). -/
structure DownloadRow where
  time : String
  url : String
  agentName : Option String := none
  deviceType : Option String := none
  deviceName : Option String := none
  countryCode : Option String := none
  episodeId : Option String := none
  hashedIpAddress : Option String := none
deriving DecidableEq

/-- JS truthiness of an optional string: `undefined` and `""` are falsy. -/
def truthy (o : Option String) : Option String :=
  match o with
  | some s => if s = "" then none else some s
  | none => none

/-- JS `x || y` for an optional string `x` and default `y`. -/
def jsOr (o : Option String) (d : String) : String :=
  match truthy o with
  | some s => s
  | none => d

/-- Insertion into an insertion-ordered set (JS `Set.add` / fresh `Map.set`). -/
def insKey (ks : List String) (k : String) : List String :=
  if k ∈ ks then ks else ks ++ [k]

/-- First-appearance order of the elements of `l` (JS `Map`/`Set` key order). -/
def keyOrder (l : List String) : List String :=
  l.foldl insKey []

/-- `m.set(k, (m.get(k) || 0) + 1)` on an insertion-ordered counting map. -/
def upsertCount : List (String × Nat) → String → List (String × Nat)
  | [], k => [(k, 1)]
  | (k', c) :: rest, k =>
    if k' = k then (k', c + 1) :: rest else (k', c) :: upsertCount rest k

/-- The per-category counting pass (`appMap`/`countryMap`/`deviceMap` loops):
rows whose key is absent or empty are skipped (`if (row.agentName) ...`). -/
def countBy (rows : List DownloadRow) (key : DownloadRow → Option String) :
    List (String × Nat) :=
  rows.foldl (fun m r =>
    match truthy (key r) with
    | some s => upsertCount m s
    | none => m) []

/-- The ordering used by `.sort((a, b) => b.count - a.count)`. -/
def countRel {α : Type} (f : α → Nat) : α → α → Prop :=
  fun a b => f b ≤ f a

instance {α : Type} (f : α → Nat) : DecidableRel (countRel f) :=
  fun _ _ => Nat.decLe _ _

instance {α : Type} (f : α → Nat) : IsTotal α (countRel f) :=
  ⟨fun a b => Nat.le_total (f b) (f a)⟩

instance {α : Type} (f : α → Nat) : IsTrans α (countRel f) :=
  ⟨fun _ _ _ h h' => Nat.le_trans h' h⟩

/-- JS `Array.prototype.sort((a, b) => b.count - a.count)`: a stable sort,
descending by `f`; insertion sort is stable. -/
def sortByCountDesc {α : Type} (f : α → Nat) (l : List α) : List α :=
  List.insertionSort (countRel f) l

/-- A `{key, count, percentage}` entry of `topCountries`/`topApps`/`topDevices`
(field `key` stands for `countryCode`/`appName`/`deviceType`). -/
structure CategoryEntry where
  key : String
  count : Nat
  percentage : ℚ
deriving DecidableEq

/-- `.map(([k, count]) => ({k, count, percentage: (count/totalDownloads)*100}))`. -/
def toEntries (total : Nat) (m : List (String × Nat)) : List CategoryEntry :=
  m.map fun p => ⟨p.1, p.2, (p.2 : ℚ) / (total : ℚ) * 100⟩

/-- The value type of `episodeMap`: `{ downloads, uniqueIps: Set }`. -/
structure EpisodeAcc where
  downloads : Nat
  uniqueIps : List String
deriving DecidableEq

/-- `if (row.hashedIpAddress) { stats.uniqueIps.add(row.hashedIpAddress) }`. -/
def addHash (ips : List String) (h : Option String) : List String :=
  match truthy h with
  | some s => insKey ips s
  | none => ips

/-- One step of the `episodeMap` loop: create-if-missing then
`stats.downloads += 1` and conditional `uniqueIps.add`. -/
def upsertEpisode : List (String × EpisodeAcc) → String → Option String →
    List (String × EpisodeAcc)
  | [], id, h => [(id, ⟨1, addHash [] h⟩)]
  | (k, acc) :: rest, id, h =>
    if k = id then (k, ⟨acc.downloads + 1, addHash acc.uniqueIps h⟩) :: rest
    else (k, acc) :: upsertEpisode rest id h

/-- The `episodeMap` accumulation over all rows, keyed by
`row.episodeId || row.url`. -/
def episodeMap (rows : List DownloadRow) : List (String × EpisodeAcc) :=
  rows.foldl (fun m r => upsertEpisode m (jsOr r.episodeId r.url) r.hashedIpAddress) []

/-- One `episodeStats` output entry. -/
structure EpisodeStat where
  episodeId : String
  url : String
  downloads : Nat
  uniqueListeners : Nat
deriving DecidableEq

/-- `episodeStats`: map the episode accumulators to output entries
(decorating with `episodeTitleMap.get(id) || id`) and sort descending by
downloads. -/
def episodeStats (titles : List (String × String)) (rows : List DownloadRow) :
    List EpisodeStat :=
  sortByCountDesc (fun e => e.downloads)
    ((episodeMap rows).map fun p =>
      ⟨p.1, jsOr (titles.lookup p.1) p.1, p.2.downloads, p.2.uniqueIps.length⟩)

/-- `const totalDownloads = allRows.length`. -/
def totalDownloads (rows : List DownloadRow) : Nat :=
  rows.length

/-- Milliseconds in `n` days, as in `n * 24 * 60 * 60 * 1000`. -/
def msPerDay : Int := 24 * 60 * 60 * 1000

/-- `allRows.filter(r => new Date(r.time).getTime() >= Date.now() - 7*24*60*60*1000)`. -/
def rows7Days (parseTime : String → Int) (now : Int) (rows : List DownloadRow) :
    List DownloadRow :=
  rows.filter fun r => decide (now - 7 * msPerDay ≤ parseTime r.time)

/-- The 30-day analogue of `rows7Days`. -/
def rows30Days (parseTime : String → Int) (now : Int) (rows : List DownloadRow) :
    List DownloadRow :=
  rows.filter fun r => decide (now - 30 * msPerDay ≤ parseTime r.time)

/-- `new Set(allRows.map(r => r.hashedIpAddress).filter(Boolean)).size`. -/
def uniqueAudience (rows : List DownloadRow) : Nat :=
  (keyOrder (rows.filterMap fun r => truthy r.hashedIpAddress)).length

/-- The country grouping with percentages, before sorting. -/
def countryEntries (rows : List DownloadRow) : List CategoryEntry :=
  toEntries (totalDownloads rows) (countBy rows fun r => r.countryCode)

/-- The country grouping sorted descending by count (before `slice(0, 10)`). -/
def countryEntriesSorted (rows : List DownloadRow) : List CategoryEntry :=
  sortByCountDesc (fun e => e.count) (countryEntries rows)

/-- `topCountries`: sorted country entries capped by `.slice(0, 10)`. -/
def topCountries (rows : List DownloadRow) : List CategoryEntry :=
  (countryEntriesSorted rows).take 10

/-- The app grouping with percentages, before sorting. -/
def appEntries (rows : List DownloadRow) : List CategoryEntry :=
  toEntries (totalDownloads rows) (countBy rows fun r => r.agentName)

/-- The app grouping sorted descending by count (before `slice(0, 10)`). -/
def appEntriesSorted (rows : List DownloadRow) : List CategoryEntry :=
  sortByCountDesc (fun e => e.count) (appEntries rows)

/-- `topApps`: sorted app entries capped by `.slice(0, 10)`. -/
def topApps (rows : List DownloadRow) : List CategoryEntry :=
  (appEntriesSorted rows).take 10

/-- The device grouping with percentages, before sorting. -/
def deviceEntries (rows : List DownloadRow) : List CategoryEntry :=
  toEntries (totalDownloads rows) (countBy rows fun r => r.deviceType)

/-- `topDevices`: sorted device entries, no cap. -/
def topDevices (rows : List DownloadRow) : List CategoryEntry :=
  sortByCountDesc (fun e => e.count) (deviceEntries rows)

/-- `row.time.split('T')[0]`: the characters before the first `'T'`. -/
def dateOf (t : String) : String :=
  String.mk (t.data.takeWhile fun c => c ≠ 'T')

/-- One step of the nested `episodeDailyMap` accumulation. -/
def upsertDaily : List (String × List (String × Nat)) → String → String →
    List (String × List (String × Nat))
  | [], d, id => [(d, [(id, 1)])]
  | (d', dm) :: rest, d, id =>
    if d' = d then (d', upsertCount dm id) :: rest
    else (d', dm) :: upsertDaily rest d id

/-- `episodeDailyMap`: date → (episodeId → daily count). -/
def episodeDailyMap (rows : List DownloadRow) :
    List (String × List (String × Nat)) :=
  rows.foldl (fun m r => upsertDaily m (dateOf r.time) (jsOr r.episodeId r.url)) []

/-- The default JS string comparison (lexicographic by code unit), as used by
`Array.prototype.sort()` without a comparator: strict less-than on the
character lists. -/
def strLtB : List Char → List Char → Bool
  | _, [] => false
  | [], _ :: _ => true
  | a :: as, b :: bs =>
    if a < b then true
    else if b < a then false
    else strLtB as bs

/-- Strict JS string order. -/
def strLt (a b : String) : Prop := strLtB a.data b.data = true

/-- Non-strict JS string order (`a ≤ b` iff not `b < a`). -/
def strLe (a b : String) : Prop := strLtB b.data a.data = false

instance : DecidableRel strLt := fun a b =>
  inferInstanceAs (Decidable (strLtB a.data b.data = true))

instance : DecidableRel strLe := fun a b =>
  inferInstanceAs (Decidable (strLtB b.data a.data = false))

/-- `Array.from(map.keys()).sort()`: lexicographic ascending string sort. -/
def sortDates (l : List String) : List String :=
  List.insertionSort strLe l

/-- `allEpisodeIds`: every episode id of any day bucket, in first-appearance
order (a JS `Set` filled by iterating the nested maps). -/
def allEpisodeIds (m : List (String × List (String × Nat))) : List String :=
  m.foldl (fun acc p => p.2.foldl (fun acc2 q => insKey acc2 q.1) acc) []

/-- `episodeCumulativeMap` seeded with `0` for every known episode id. -/
def initCum (m : List (String × List (String × Nat))) : List (String × Nat) :=
  (allEpisodeIds m).map fun id => (id, 0)

/-- `episodeCumulativeMap.set(id, (episodeCumulativeMap.get(id) || 0) + n)`. -/
def addCum : List (String × Nat) → String → Nat → List (String × Nat)
  | [], id, n => [(id, n)]
  | (k, v) :: rest, id, n =>
    if k = id then (k, v + n) :: rest else (k, v) :: addCum rest id n

/-- Fold one day bucket's counts into the running cumulative map. -/
def stepDay (cum : List (String × Nat)) (dayData : List (String × Nat)) :
    List (String × Nat) :=
  dayData.foldl (fun c q => addCum c q.1 q.2) cum

/-- One `downloadsOverTime` point: the `date` plus every episode id's
cumulative total (the source's open record, given a fixed schema). -/
structure TimePoint where
  date : String
  perItem : List (String × Nat)
deriving DecidableEq

/-- The `allDates.map(date => ...)` walk emitting one snapshot per date. -/
def buildPoints (daily : List (String × List (String × Nat))) :
    List String → List (String × Nat) → List TimePoint
  | [], _ => []
  | d :: ds, cum =>
    let cum' := stepDay cum ((daily.lookup d).getD [])
    ⟨d, cum'⟩ :: buildPoints daily ds cum'

/-- The full `downloadsOverTime` construction. -/
def downloadsOverTime (rows : List DownloadRow) : List TimePoint :=
  buildPoints (episodeDailyMap rows)
    (sortDates ((episodeDailyMap rows).map Prod.fst))
    (initCum (episodeDailyMap rows))

/-- The analytics result (interface `OP3Analytics`). -/
structure OP3Analytics where
  totalDownloads : Nat
  uniqueAudience : Nat
  downloads7Days : Nat
  downloads30Days : Nat
  episodeStats : List EpisodeStat
  topCountries : List CategoryEntry
  topApps : List CategoryEntry
  topDevices : List CategoryEntry
  downloadsOverTime : List TimePoint
deriving DecidableEq

/-- The aggregation of `useOP3Analytics` over the fetched rows (source lines
249–398).  `timeRange` shapes only the upstream fetch URL (an excluded
collaborator); the aggregation itself never reads it, which the definition
makes literal. -/
def aggregate (parseTime : String → Int) (now : Int) (_timeRange : TimeRange)
    (titles : List (String × String)) (rows : List DownloadRow) : OP3Analytics :=
  { totalDownloads := totalDownloads rows
    uniqueAudience := uniqueAudience rows
    downloads7Days := (rows7Days parseTime now rows).length
    downloads30Days := (rows30Days parseTime now rows).length
    episodeStats := episodeStats titles rows
    topCountries := topCountries rows
    topApps := topApps rows
    topDevices := topDevices rows
    downloadsOverTime := downloadsOverTime rows }

/-! OP3 URL prefix helpers (`src/lib/op3` utilities in the repository).
JS strings are modelled as `List Char`. -/

/-- The constant `OP3_PREFIX = 'https://op3.dev/e/'`. -/
def OP3_PREFIX : List Char := "https://op3.dev/e/".data

/-- The scheme `https://`. -/
def HTTPS_PROTO : List Char := "https://".data

/-- The scheme `http://`. -/
def HTTP_PROTO : List Char := "http://".data

/-- `url.replace(/^https?:\/\//, '')`: strip one leading protocol. -/
def stripProtocol (url : List Char) : List Char :=
  if List.isPrefixOf HTTPS_PROTO url then url.drop 8
  else if List.isPrefixOf HTTP_PROTO url then url.drop 7
  else url

/-- `addOP3Prefix`: prefix a URL with the OP3 analytics prefix unless empty or
already prefixed. -/
def addOP3Prefix (url : List Char) : List Char :=
  if url = [] then url
  else if List.isPrefixOf OP3_PREFIX url then url
  else OP3_PREFIX ++ stripProtocol url

/-- `removeOP3Prefix`: strip the OP3 prefix, restoring `https://`. -/
def removeOP3Prefix (url : List Char) : List Char :=
  if url = [] then url
  else if List.isPrefixOf OP3_PREFIX url then
    HTTPS_PROTO ++ url.drop OP3_PREFIX.length
  else url

/-! MIME type correction (`ensureCorrectMimeType` in `useUploadFile.ts`). -/

/-- The `MIME_TYPE_MAP` of file extensions to MIME types. -/
def MIME_TYPE_MAP : List (String × String) :=
  [(".mp3", "audio/mpeg"), (".m4a", "audio/mp4"), (".aac", "audio/aac"),
   (".ogg", "audio/ogg"), (".oga", "audio/ogg"), (".wav", "audio/wav"),
   (".flac", "audio/flac"), (".opus", "audio/opus"), (".webm", "audio/webm"),
   (".mp4", "video/mp4"), (".m4v", "video/mp4"), (".mov", "video/quicktime"),
   (".avi", "video/x-msvideo"), (".mkv", "video/x-matroska"),
   (".jpg", "image/jpeg"), (".jpeg", "image/jpeg"), (".png", "image/png"),
   (".gif", "image/gif"), (".webp", "image/webp"), (".svg", "image/svg+xml"),
   (".json", "application/json"), (".srt", "text/srt"), (".vtt", "text/vtt")]

/-- A browser `File`: name, MIME type, and byte content. -/
structure File where
  name : String
  type : String
  content : List Nat
deriving DecidableEq

/-- `name.toLowerCase()` (ASCII lowering, as `Char.toLower` per character). -/
def lowerStr (s : String) : String :=
  String.mk (s.data.map Char.toLower)

/-- `file.name.toLowerCase().match(/\.[^.]+$/)?.[0]`: the lower-cased final
extension (a dot followed by at least one non-dot character, at the end). -/
def extOf (name : String) : Option String :=
  let rev := (lowerStr name).data.reverse
  let seg := rev.takeWhile fun c => c ≠ '.'
  if seg = [] then none
  else
    match rev.drop seg.length with
    | '.' :: _ => some (String.mk ('.' :: seg.reverse))
    | _ => none

/-- `ensureCorrectMimeType`: replace a missing or `application/octet-stream`
MIME type using the extension map, else return the file unchanged. -/
def ensureCorrectMimeType (f : File) : File :=
  if f.type ≠ "" ∧ f.type ≠ "application/octet-stream" then f
  else
    match extOf f.name with
    | none => f
    | some ext =>
      match MIME_TYPE_MAP.lookup ext with
      | none => f
      | some t => { name := f.name, type := t, content := f.content }

/-! Concrete rows used by witnesses and counterexamples. -/

/-- A row carrying only a country code. -/
def cRowUS : DownloadRow :=
  { time := "2024-01-01T00:00:00Z", url := "u1", countryCode := some "US" }

/-- A row carrying no categorical keys at all. -/
def cRowBare : DownloadRow :=
  { time := "2024-01-01T01:00:00Z", url := "u2" }

/-- A row carrying every categorical key. -/
def cRowFull : DownloadRow :=
  { time := "2024-01-02T00:00:00Z", url := "u3", agentName := some "App",
    deviceType := some "mobile", countryCode := some "US",
    episodeId := some "ep1", hashedIpAddress := some "h1" }

/-- A row carrying a given string as url, country code and app name. -/
def mkCRow (s : String) : DownloadRow :=
  { time := "2024-01-01T00:00:00Z", url := s, countryCode := some s,
    agentName := some s }

/-- Eleven rows with eleven distinct country codes and app names. -/
def c11Rows : List DownloadRow :=
  [mkCRow "a", mkCRow "b", mkCRow "c", mkCRow "d", mkCRow "e", mkCRow "f",
   mkCRow "g", mkCRow "h", mkCRow "i", mkCRow "j", mkCRow "k"]

/-- A row on day one whose item identity falls back to url `e1`. -/
def tRow1 : DownloadRow := { time := "2024-01-01T05:00:00Z", url := "e1" }

/-- A row on day two whose item identity falls back to url `e2`. -/
def tRow2 : DownloadRow := { time := "2024-01-02T06:00:00Z", url := "e2" }

/-- C1: the three scalar outputs `totalDownloads`, `downloads7Days` and
`downloads30Days` of the aggregation are independent of the selected chart
window (and of the title lookup): for any two windows they coincide, and they
equal respectively the size of the full row set and the sizes of the fixed
rolling 7-day and 30-day windows ending at `now`. -/
theorem totals_window_independent (parseTime : String → Int) (now : Int)
    (tr tr' : TimeRange) (titles titles' : List (String × String))
    (rows : List DownloadRow) :
    (aggregate parseTime now tr titles rows).totalDownloads
      = (aggregate parseTime now tr' titles' rows).totalDownloads ∧
    (aggregate parseTime now tr titles rows).downloads7Days
      = (aggregate parseTime now tr' titles' rows).downloads7Days ∧
    (aggregate parseTime now tr titles rows).downloads30Days
      = (aggregate parseTime now tr' titles' rows).downloads30Days ∧
    (aggregate parseTime now tr titles rows).totalDownloads = rows.length ∧
    (aggregate parseTime now tr titles rows).downloads7Days
      = (rows.filter fun r => decide (now - 7 * msPerDay ≤ parseTime r.time)).length ∧
    (aggregate parseTime now tr titles rows).downloads30Days
      = (rows.filter fun r => decide (now - 30 * msPerDay ≤ parseTime r.time)).length :=
  ⟨rfl, rfl, rfl, rfl, rfl, rfl⟩

/-- C7: aggregating an empty row set yields, for every window, the well-formed
all-zero result: zero scalars and empty sequences (the aggregation is a total
function, so no error is ever signalled). -/
theorem aggregate_empty (parseTime : String → Int) (now : Int) (tr : TimeRange)
    (titles : List (String × String)) :
    aggregate parseTime now tr titles [] =
      { totalDownloads := 0, uniqueAudience := 0, downloads7Days := 0,
        downloads30Days := 0, episodeStats := [], topCountries := [],
        topApps := [], topDevices := [], downloadsOverTime := [] } :=
  rfl

/-- C8: the rolling-window lower bound is inclusive: a row whose parsed
timestamp is exactly `now - 7 days` (in ms) belongs to the 7-day window, while
a row one second earlier does not; correspondingly for the 30-day window. -/
theorem rolling_window_boundary (parseTime : String → Int) (now : Int)
    (rows : List DownloadRow) (r : DownloadRow) (hr : r ∈ rows) :
    (parseTime r.time = now - 7 * msPerDay → r ∈ rows7Days parseTime now rows) ∧
    (parseTime r.time = now - 7 * msPerDay - 1000 →
      r ∉ rows7Days parseTime now rows) ∧
    (parseTime r.time = now - 30 * msPerDay → r ∈ rows30Days parseTime now rows) ∧
    (parseTime r.time = now - 30 * msPerDay - 1000 →
      r ∉ rows30Days parseTime now rows) := by
  refine ⟨fun h => ?_, fun h hmem => ?_, fun h => ?_, fun h hmem => ?_⟩
  · exact List.mem_filter.mpr ⟨hr, by simp [h]⟩
  · have h2 := of_decide_eq_true (List.mem_filter.mp hmem).2
    rw [h] at h2
    omega
  · exact List.mem_filter.mpr ⟨hr, by simp [h]⟩
  · have h2 := of_decide_eq_true (List.mem_filter.mp hmem).2
    rw [h] at h2
    omega

/-- Witness for C8 at a concrete row, with `now = 7 days` and a parser sending
every timestamp to `0 = now - 7 days`. -/
theorem rolling_window_boundary_witness :
    (⟨"2024-01-01T00:00:00Z", "u", none, none, none, none, none, none⟩ :
        DownloadRow) ∈
      rows7Days (fun _ => 0) (7 * msPerDay)
        [⟨"2024-01-01T00:00:00Z", "u", none, none, none, none, none, none⟩] :=
  (rolling_window_boundary (fun _ => 0) (7 * msPerDay) _ _ (by decide)).1
    (by decide)

/-- C9 counterexample: the add/remove roundtrip fails on a URL that begins
with `https://` but already carries the OP3 prefix — `addOP3Prefix` returns it
unchanged and `removeOP3Prefix` then strips the prefix. -/
theorem op3_roundtrip_counterexample :
    List.isPrefixOf HTTPS_PROTO ("https://op3.dev/e/example.com/ep.mp3".data)
      = true ∧
    removeOP3Prefix
        (addOP3Prefix ("https://op3.dev/e/example.com/ep.mp3".data))
      ≠ "https://op3.dev/e/example.com/ep.mp3".data := by
  decide

/-- C9 (amended): for every URL beginning with `https://` that is not already
OP3-prefixed, adding the prefix strips the scheme and prepends
`https://op3.dev/e/`, and removing it restores the original URL exactly. -/
theorem op3_roundtrip (u : List Char)
    (h1 : List.isPrefixOf HTTPS_PROTO u = true)
    (h2 : List.isPrefixOf OP3_PREFIX u = false) :
    addOP3Prefix u = OP3_PREFIX ++ u.drop 8 ∧
    removeOP3Prefix (addOP3Prefix u) = u := by
  obtain ⟨t, ht⟩ := List.isPrefixOf_iff_prefix.mp h1
  have hlen : HTTPS_PROTO.length = 8 := rfl
  have hdrop : u.drop 8 = t := by
    rw [← ht, ← hlen, List.drop_left]
  have hne : u ≠ [] := by
    rw [← ht]
    simp [HTTPS_PROTO]
  have hnop3 : ¬(List.isPrefixOf OP3_PREFIX u = true) := by
    rw [h2]
    exact Bool.false_ne_true
  have hadd : addOP3Prefix u = OP3_PREFIX ++ u.drop 8 := by
    rw [addOP3Prefix, if_neg hne, if_neg hnop3, stripProtocol, if_pos h1]
  refine ⟨hadd, ?_⟩
  rw [hadd, hdrop, removeOP3Prefix, if_neg (by simp [OP3_PREFIX]),
    if_pos (List.isPrefixOf_iff_prefix.mpr (List.prefix_append _ _)),
    List.drop_left, ht]

/-- Witness for C9 (amended) at a concrete non-prefixed URL. -/
theorem op3_roundtrip_witness :
    removeOP3Prefix (addOP3Prefix ("https://example.com/feed.mp3".data))
      = "https://example.com/feed.mp3".data :=
  (op3_roundtrip _ (by decide) (by decide)).2

/-- C10: `ensureCorrectMimeType` preserves the file's name and byte content;
it returns the input unchanged whenever the type is already valid, or there is
no extension, or the extension is unknown; and it only rewrites the type (to
the mapped MIME type) when the type is empty or `application/octet-stream`
and the lower-cased extension is in the map. -/
theorem mime_frame (f : File) :
    (ensureCorrectMimeType f).name = f.name ∧
    (ensureCorrectMimeType f).content = f.content ∧
    ((f.type ≠ "" ∧ f.type ≠ "application/octet-stream") →
      ensureCorrectMimeType f = f) ∧
    (extOf f.name = none → ensureCorrectMimeType f = f) ∧
    (∀ e, extOf f.name = some e → MIME_TYPE_MAP.lookup e = none →
      ensureCorrectMimeType f = f) ∧
    (∀ e t, (f.type = "" ∨ f.type = "application/octet-stream") →
      extOf f.name = some e → MIME_TYPE_MAP.lookup e = some t →
      ensureCorrectMimeType f = { f with type := t }) := by
  by_cases hc : f.type ≠ "" ∧ f.type ≠ "application/octet-stream"
  · have he : ensureCorrectMimeType f = f := by
      rw [ensureCorrectMimeType, if_pos hc]
    rw [he]
    refine ⟨rfl, rfl, fun _ => rfl, fun _ => rfl, fun _ _ _ => rfl, ?_⟩
    intro e t hty _ _
    rcases hty with h | h
    · exact absurd h hc.1
    · exact absurd h hc.2
  · cases hext : extOf f.name with
    | none =>
      have he : ensureCorrectMimeType f = f := by
        simp only [ensureCorrectMimeType, if_neg hc, hext]
      rw [he]
      exact ⟨rfl, rfl, fun _ => rfl, fun _ => rfl, fun _ _ _ => rfl,
        fun e t _ h1 _ => nomatch h1⟩
    | some ext =>
      cases hlk : MIME_TYPE_MAP.lookup ext with
      | none =>
        have he : ensureCorrectMimeType f = f := by
          simp only [ensureCorrectMimeType, if_neg hc, hext, hlk]
        rw [he]
        refine ⟨rfl, rfl, fun _ => rfl, fun _ => rfl, fun _ _ _ => rfl, ?_⟩
        intro e t _ h1 h2
        injection h1 with h1
        subst h1
        rw [hlk] at h2
        exact nomatch h2
      | some t' =>
        have he : ensureCorrectMimeType f =
            { name := f.name, type := t', content := f.content } := by
          simp only [ensureCorrectMimeType, if_neg hc, hext, hlk]
        rw [he]
        refine ⟨rfl, rfl, fun h => absurd h hc, fun h => Option.noConfusion h,
          ?_, ?_⟩
        · intro e h1 h2
          injection h1 with h1
          subst h1
          rw [hlk] at h2
          exact nomatch h2
        · intro e t'' _ h1 h2
          injection h1 with h1
          subst h1
          rw [hlk] at h2
          injection h2 with h2
          subst h2
          rfl

/-- Witness for C10 at a concrete file whose empty type gets corrected. -/
theorem mime_frame_witness :
    ensureCorrectMimeType ⟨"Episode.MP3", "", [7, 13]⟩ =
      { name := "Episode.MP3", type := "audio/mpeg", content := [7, 13] } :=
  (mime_frame ⟨"Episode.MP3", "", [7, 13]⟩).2.2.2.2.2 ".mp3" "audio/mpeg"
    (Or.inl rfl) (by decide) (by decide)

/-! Helper lemmas about the grouping pass and percentages (shared by several
claims). -/

theorem upsertCount_sum (m : List (String × Nat)) (k : String) :
    ((upsertCount m k).map Prod.snd).sum = (m.map Prod.snd).sum + 1 := by
  induction m with
  | nil => rfl
  | cons p rest ih =>
    obtain ⟨k', c⟩ := p
    by_cases h : k' = k
    · simp only [upsertCount, if_pos h, List.map_cons, List.sum_cons]
      omega
    · simp only [upsertCount, if_neg h, List.map_cons, List.sum_cons, ih]
      omega

theorem countBy_sum (rows : List DownloadRow) (key : DownloadRow → Option String) :
    ((countBy rows key).map Prod.snd).sum
      = (rows.filterMap fun r => truthy (key r)).length := by
  suffices h : ∀ m : List (String × Nat),
      ((rows.foldl (fun m r =>
          match truthy (key r) with
          | some s => upsertCount m s
          | none => m) m).map Prod.snd).sum
        = (m.map Prod.snd).sum + (rows.filterMap fun r => truthy (key r)).length by
    simpa [countBy] using h []
  induction rows with
  | nil => intro m; simp
  | cons r rows ih =>
    intro m
    cases htr : truthy (key r) with
    | some s =>
      simp only [List.foldl_cons, htr, List.filterMap_cons, ih, upsertCount_sum,
        List.length_cons]
      omega
    | none =>
      simp only [List.foldl_cons, htr, List.filterMap_cons, ih]

theorem filterMap_truthy_length (rows : List DownloadRow)
    (key : DownloadRow → Option String)
    (hall : ∀ r ∈ rows, truthy (key r) ≠ none) :
    (rows.filterMap fun r => truthy (key r)).length = rows.length := by
  induction rows with
  | nil => rfl
  | cons r rows ih =>
    cases htr : truthy (key r) with
    | none => exact absurd htr (hall r (List.mem_cons_self r rows))
    | some s =>
      simp [List.filterMap_cons, htr,
        ih fun x hx => hall x (List.mem_cons_of_mem r hx)]

theorem toEntries_percentage_sum (T : Nat) (m : List (String × Nat)) :
    ((toEntries T m).map fun e => e.percentage).sum
      = ((m.map Prod.snd).sum : ℚ) / (T : ℚ) * 100 := by
  induction m with
  | nil => simp [toEntries]
  | cons p rest ih =>
    simp only [toEntries, List.map_cons, List.sum_cons] at ih ⊢
    rw [ih]
    push_cast
    ring

theorem sortByCountDesc_percentage_sum (l : List CategoryEntry) :
    ((sortByCountDesc (fun e => e.count) l).map fun e => e.percentage).sum
      = (l.map fun e => e.percentage).sum :=
  ((List.perm_insertionSort _ l).map _).sum_eq

theorem sortByCountDesc_length {α : Type} (f : α → Nat) (l : List α) :
    (sortByCountDesc f l).length = l.length :=
  List.length_insertionSort _ _

theorem toEntries_length (T : Nat) (m : List (String × Nat)) :
    (toEntries T m).length = m.length :=
  List.length_map _ _

theorem grouped_percentage_sum (rows : List DownloadRow)
    (key : DownloadRow → Option String) (h0 : rows ≠ [])
    (hall : ∀ r ∈ rows, truthy (key r) ≠ none) :
    ((sortByCountDesc (fun e => e.count)
        (toEntries (totalDownloads rows) (countBy rows key))).map
      fun e => e.percentage).sum = 100 := by
  rw [sortByCountDesc_percentage_sum, toEntries_percentage_sum, countBy_sum,
    filterMap_truthy_length rows key hall, totalDownloads]
  have h1 : (rows.length : ℚ) ≠ 0 :=
    Nat.cast_ne_zero.mpr fun h => h0 (List.length_eq_zero.mp h)
  rw [div_self h1, one_mul]

/-- C2 counterexample: a two-row set with positive total where one row lacks a
country code. The single `topCountries` entry gets percentage 50, so the
percentages sum to 50, not (approximately) 100. -/
theorem percentage_sum_counterexample :
    0 < (aggregate (fun _ => 0) 0 TimeRange.d30 [] [cRowUS, cRowBare]).totalDownloads ∧
    ((aggregate (fun _ => 0) 0 TimeRange.d30 [] [cRowUS, cRowBare]).topCountries.map
        fun e => e.percentage).sum ≠ 100 := by
  have hTC : (aggregate (fun _ => 0) 0 TimeRange.d30 [] [cRowUS, cRowBare]).topCountries
      = [⟨"US", 1, ((1 : Nat) : ℚ) / ((2 : Nat) : ℚ) * 100⟩] := rfl
  constructor
  · decide
  · rw [hTC]
    norm_num

/-- C2 (amended): whenever the row set is nonempty, every row carries the
respective categorical key, and (for the capped country/app lists) there are
at most 10 distinct keys, the percentages of the emitted list sum to exactly
100.  Rows lacking the key and cap truncation each lower the sum, as the
counterexample shows. -/
theorem percentage_sum_amended (rows : List DownloadRow) (h0 : rows ≠ []) :
    ((∀ r ∈ rows, truthy r.countryCode ≠ none) →
        (countBy rows fun r => r.countryCode).length ≤ 10 →
        ((topCountries rows).map fun e => e.percentage).sum = 100) ∧
    ((∀ r ∈ rows, truthy r.agentName ≠ none) →
        (countBy rows fun r => r.agentName).length ≤ 10 →
        ((topApps rows).map fun e => e.percentage).sum = 100) ∧
    ((∀ r ∈ rows, truthy r.deviceType ≠ none) →
        ((topDevices rows).map fun e => e.percentage).sum = 100) := by
  refine ⟨fun hall hcap => ?_, fun hall hcap => ?_, fun hall => ?_⟩
  · rw [topCountries, List.take_of_length_le
      (by rw [countryEntriesSorted, sortByCountDesc_length, countryEntries,
        toEntries_length]; exact hcap),
      countryEntriesSorted, countryEntries]
    exact grouped_percentage_sum rows _ h0 hall
  · rw [topApps, List.take_of_length_le
      (by rw [appEntriesSorted, sortByCountDesc_length, appEntries,
        toEntries_length]; exact hcap),
      appEntriesSorted, appEntries]
    exact grouped_percentage_sum rows _ h0 hall
  · rw [topDevices, deviceEntries]
    exact grouped_percentage_sum rows _ h0 hall

/-- Witness for C2 (amended) on a one-row set carrying every key. -/
theorem percentage_sum_amended_witness :
    ((topCountries [cRowFull]).map fun e => e.percentage).sum = 100 :=
  (percentage_sum_amended [cRowFull] (by decide)).1 (by decide) (by decide)

/-! Stability and sortedness of the JS stable sort model. -/

theorem filter_orderedInsert_count {α : Type} (f : α → Nat) (c : Nat) (a : α)
    (l : List α) :
    (List.orderedInsert (countRel f) a l).filter (fun e => f e == c)
      = if f a = c then a :: l.filter (fun e => f e == c)
        else l.filter (fun e => f e == c) := by
  induction l with
  | nil =>
    by_cases h : f a = c
    · simp [h]
    · simp [h]
  | cons b bs ih =>
    by_cases hr : countRel f a b
    · simp only [List.orderedInsert, if_pos hr, List.filter_cons]
      by_cases h : f a = c
      · simp [h]
      · simp [h]
    · have hlt : f a < f b := Nat.lt_of_not_le hr
      simp only [List.orderedInsert, if_neg hr, List.filter_cons, ih]
      by_cases hfa : f a = c
      · have hfb : ¬f b = c := by omega
        simp [hfa, hfb]
      · simp [hfa]

theorem filter_sortByCountDesc {α : Type} (f : α → Nat) (c : Nat) (l : List α) :
    (sortByCountDesc f l).filter (fun e => f e == c)
      = l.filter (fun e => f e == c) := by
  induction l with
  | nil => rfl
  | cons a l ih =>
    rw [sortByCountDesc] at ih
    rw [sortByCountDesc, List.insertionSort, filter_orderedInsert_count, ih]
    by_cases h : f a = c
    · simp [h, List.filter_cons]
    · simp [h, List.filter_cons]

theorem pairwise_sortByCountDesc {α : Type} (f : α → Nat) (l : List α) :
    (sortByCountDesc f l).Pairwise (countRel f) :=
  List.sorted_insertionSort (countRel f) l

/-! Key order of the grouping maps: first-appearance order of the keys. -/

theorem insKey_cons_ne {k' k : String} (ks : List String) (h : k' ≠ k) :
    insKey (k' :: ks) k = k' :: insKey ks k := by
  by_cases hm : k ∈ ks
  · simp [insKey, hm, List.mem_cons]
  · have hne : ¬k ∈ k' :: ks := by
      intro hc
      rcases List.mem_cons.mp hc with heq | hk
      · exact h heq.symm
      · exact hm hk
    simp [insKey, hm, hne]

theorem upsertCount_keys (m : List (String × Nat)) (k : String) :
    (upsertCount m k).map Prod.fst = insKey (m.map Prod.fst) k := by
  induction m with
  | nil => simp [upsertCount, insKey]
  | cons p rest ih =>
    obtain ⟨k', c⟩ := p
    by_cases h : k' = k
    · subst h
      simp [upsertCount, insKey, List.mem_cons]
    · simp only [upsertCount, if_neg h, List.map_cons, ih]
      exact (insKey_cons_ne _ h).symm

theorem countBy_keys (rows : List DownloadRow) (key : DownloadRow → Option String) :
    (countBy rows key).map Prod.fst
      = keyOrder (rows.filterMap fun r => truthy (key r)) := by
  suffices h : ∀ m : List (String × Nat),
      ((rows.foldl (fun m r =>
          match truthy (key r) with
          | some s => upsertCount m s
          | none => m) m).map Prod.fst)
        = (rows.filterMap fun r => truthy (key r)).foldl insKey (m.map Prod.fst) by
    simpa [countBy, keyOrder] using h []
  induction rows with
  | nil => intro m; simp
  | cons r rows ih =>
    intro m
    cases htr : truthy (key r) with
    | some s =>
      simp only [List.foldl_cons, htr, List.filterMap_cons, ih, upsertCount_keys]
    | none =>
      simp only [List.foldl_cons, htr, List.filterMap_cons, ih]

theorem upsertEpisode_keys (m : List (String × EpisodeAcc)) (id : String)
    (h : Option String) :
    (upsertEpisode m id h).map Prod.fst = insKey (m.map Prod.fst) id := by
  induction m with
  | nil => simp [upsertEpisode, insKey]
  | cons p rest ih =>
    obtain ⟨k, acc⟩ := p
    by_cases hk : k = id
    · subst hk
      simp [upsertEpisode, insKey, List.mem_cons]
    · simp only [upsertEpisode, if_neg hk, List.map_cons, ih]
      exact (insKey_cons_ne _ hk).symm

theorem episodeMap_keys (rows : List DownloadRow) :
    (episodeMap rows).map Prod.fst
      = keyOrder (rows.map fun r => jsOr r.episodeId r.url) := by
  suffices h : ∀ m : List (String × EpisodeAcc),
      ((rows.foldl (fun m r =>
          upsertEpisode m (jsOr r.episodeId r.url) r.hashedIpAddress) m).map
        Prod.fst)
        = (rows.map fun r => jsOr r.episodeId r.url).foldl insKey
            (m.map Prod.fst) by
    simpa [episodeMap, keyOrder] using h []
  induction rows with
  | nil => intro m; simp
  | cons r rows ih =>
    intro m
    simp only [List.foldl_cons, List.map_cons, ih, upsertEpisode_keys]

theorem toEntries_keys (T : Nat) (m : List (String × Nat)) :
    (toEntries T m).map (fun e => e.key) = m.map Prod.fst := by
  simp [toEntries]

/-- Stability of one capped category output: the keys of the equal-count
entries form a subsequence of the first-appearance key order of the rows. -/
theorem category_take_stable (rows : List DownloadRow)
    (key : DownloadRow → Option String) (n : Nat) (c : Nat) :
    List.Sublist
      ((((sortByCountDesc (fun e => e.count)
          (toEntries (totalDownloads rows) (countBy rows key))).take n).filter
        fun e => e.count == c).map fun e => e.key)
      (keyOrder (rows.filterMap fun r => truthy (key r))) := by
  have h1 : List.Sublist
      ((((sortByCountDesc (fun e => e.count)
        (toEntries (totalDownloads rows) (countBy rows key))).take n).filter
      fun e => e.count == c))
      (((sortByCountDesc (fun e => e.count)
        (toEntries (totalDownloads rows) (countBy rows key))).filter
      fun e => e.count == c)) :=
    List.Sublist.filter _ (List.take_sublist _ _)
  rw [filter_sortByCountDesc] at h1
  have h2 := (h1.trans (List.filter_sublist _)).map fun e => e.key
  rw [toEntries_keys, countBy_keys] at h2
  exact h2

/-- C5: each of the four ranking outputs is sorted descending by its count
field, and within each equal-count class the keys appear as a subsequence of
the first-appearance order of that key in the input row sequence (the stable
sort behaviour of `Array.prototype.sort`). -/
theorem rankings_sorted_stable (titles : List (String × String))
    (rows : List DownloadRow) :
    ((episodeStats titles rows).Pairwise fun a b => b.downloads ≤ a.downloads) ∧
    (∀ c, List.Sublist
      (((episodeStats titles rows).filter fun e => e.downloads == c).map
        fun e => e.episodeId)
      (keyOrder (rows.map fun r => jsOr r.episodeId r.url))) ∧
    ((topCountries rows).Pairwise fun a b => b.count ≤ a.count) ∧
    (∀ c, List.Sublist
      (((topCountries rows).filter fun e => e.count == c).map fun e => e.key)
      (keyOrder (rows.filterMap fun r => truthy r.countryCode))) ∧
    ((topApps rows).Pairwise fun a b => b.count ≤ a.count) ∧
    (∀ c, List.Sublist
      (((topApps rows).filter fun e => e.count == c).map fun e => e.key)
      (keyOrder (rows.filterMap fun r => truthy r.agentName))) ∧
    ((topDevices rows).Pairwise fun a b => b.count ≤ a.count) ∧
    (∀ c, List.Sublist
      (((topDevices rows).filter fun e => e.count == c).map fun e => e.key)
      (keyOrder (rows.filterMap fun r => truthy r.deviceType))) := by
  refine ⟨pairwise_sortByCountDesc (fun e : EpisodeStat => e.downloads) _,
    fun c => ?_,
    List.Pairwise.sublist (List.take_sublist _ _)
      (pairwise_sortByCountDesc (fun e : CategoryEntry => e.count) _),
    fun c => category_take_stable rows _ 10 c,
    List.Pairwise.sublist (List.take_sublist _ _)
      (pairwise_sortByCountDesc (fun e : CategoryEntry => e.count) _),
    fun c => category_take_stable rows _ 10 c,
    pairwise_sortByCountDesc (fun e : CategoryEntry => e.count) _,
    fun c => ?_⟩
  · rw [episodeStats, filter_sortByCountDesc]
    have h3 : (((episodeMap rows).map fun p =>
        (⟨p.1, jsOr (titles.lookup p.1) p.1, p.2.downloads,
          p.2.uniqueIps.length⟩ : EpisodeStat)).map fun e => e.episodeId)
        = (episodeMap rows).map Prod.fst := by
      simp
    have h4 : List.Sublist
        ((((episodeMap rows).map fun p =>
            (⟨p.1, jsOr (titles.lookup p.1) p.1, p.2.downloads,
              p.2.uniqueIps.length⟩ : EpisodeStat)).filter
          fun e => e.downloads == c).map fun e => e.episodeId)
        (((episodeMap rows).map fun p =>
            (⟨p.1, jsOr (titles.lookup p.1) p.1, p.2.downloads,
              p.2.uniqueIps.length⟩ : EpisodeStat)).map fun e => e.episodeId) :=
      (List.filter_sublist _).map _
    rw [h3, episodeMap_keys] at h4
    exact h4
  · rw [topDevices, filter_sortByCountDesc]
    have h2 : List.Sublist
        (((deviceEntries rows).filter fun e => e.count == c).map
          fun e => e.key)
        ((deviceEntries rows).map fun e => e.key) :=
      (List.filter_sublist _).map _
    rw [deviceEntries, toEntries_keys, countBy_keys] at h2
    exact h2

/-! Cap behaviour of the top-N lists. -/

theorem sorted_take_drop {α : Type} (f : α → Nat) (l : List α) (n : Nat) :
    ∀ e ∈ (sortByCountDesc f l).take n, ∀ e' ∈ (sortByCountDesc f l).drop n,
      f e' ≤ f e := by
  have hp := pairwise_sortByCountDesc f l
  rw [← List.take_append_drop n (sortByCountDesc f l)] at hp
  exact fun e he e' he' => (List.pairwise_append.mp hp).2.2 e he e' he'

theorem countryEntriesSorted_length (rows : List DownloadRow) :
    (countryEntriesSorted rows).length
      = (keyOrder (rows.filterMap fun r => truthy r.countryCode)).length := by
  rw [countryEntriesSorted, sortByCountDesc_length, countryEntries,
    toEntries_length, ← countBy_keys, List.length_map]

theorem appEntriesSorted_length (rows : List DownloadRow) :
    (appEntriesSorted rows).length
      = (keyOrder (rows.filterMap fun r => truthy r.agentName)).length := by
  rw [appEntriesSorted, sortByCountDesc_length, appEntries,
    toEntries_length, ← countBy_keys, List.length_map]

/-- C6: `topCountries` and `topApps` hold at most 10 entries; when more than
10 distinct keys exist they hold exactly 10 entries and every kept entry's
count is at least every dropped entry's count (the cap is applied after
sorting); `topDevices` is a permutation of the full device grouping — never
truncated. -/
theorem topn_cap (rows : List DownloadRow) :
    (topCountries rows).length ≤ 10 ∧
    (topApps rows).length ≤ 10 ∧
    (10 < (keyOrder (rows.filterMap fun r => truthy r.countryCode)).length →
      (topCountries rows).length = 10 ∧
      ∀ e ∈ topCountries rows, ∀ e' ∈ (countryEntriesSorted rows).drop 10,
        e'.count ≤ e.count) ∧
    (10 < (keyOrder (rows.filterMap fun r => truthy r.agentName)).length →
      (topApps rows).length = 10 ∧
      ∀ e ∈ topApps rows, ∀ e' ∈ (appEntriesSorted rows).drop 10,
        e'.count ≤ e.count) ∧
    (topDevices rows).Perm (deviceEntries rows) := by
  refine ⟨?_, ?_, fun h => ⟨?_, ?_⟩, fun h => ⟨?_, ?_⟩, ?_⟩
  · rw [topCountries, List.length_take]
    exact Nat.min_le_left _ _
  · rw [topApps, List.length_take]
    exact Nat.min_le_left _ _
  · rw [topCountries, List.length_take, countryEntriesSorted_length]
    exact Nat.min_eq_left (Nat.le_of_lt h)
  · exact sorted_take_drop (fun e : CategoryEntry => e.count)
      (countryEntries rows) 10
  · rw [topApps, List.length_take, appEntriesSorted_length]
    exact Nat.min_eq_left (Nat.le_of_lt h)
  · exact sorted_take_drop (fun e : CategoryEntry => e.count)
      (appEntries rows) 10
  · exact List.perm_insertionSort _ _

/-- Witness for C6 at eleven rows with eleven distinct countries. -/
theorem topn_cap_witness : (topCountries c11Rows).length = 10 :=
  ((topn_cap c11Rows).2.2.1 (by decide)).1

/-! The JS string order: irreflexive, asymmetric, transitive, connex. -/

theorem strLtB_irrefl (l : List Char) : strLtB l l = false := by
  induction l with
  | nil => rfl
  | cons a as ih => simp [strLtB, ih]

theorem strLtB_asymm (l1 l2 : List Char) (h : strLtB l1 l2 = true) :
    strLtB l2 l1 = false := by
  induction l1 generalizing l2 with
  | nil =>
    cases l2 with
    | nil => exact nomatch h
    | cons b bs => rfl
  | cons a as ih =>
    cases l2 with
    | nil => exact absurd h (by simp [strLtB])
    | cons b bs =>
      rcases lt_trichotomy a b with hab | hab | hab
      · simp [strLtB, hab, hab.asymm]
      · subst hab
        simp only [strLtB, lt_self_iff_false, if_false] at h ⊢
        exact ih bs h
      · simp [strLtB, hab, hab.asymm] at h

theorem strLtB_trans (l1 l2 l3 : List Char) (h12 : strLtB l1 l2 = true)
    (h23 : strLtB l2 l3 = true) : strLtB l1 l3 = true := by
  induction l1 generalizing l2 l3 with
  | nil =>
    cases l3 with
    | nil => exact absurd h23 (by simp [strLtB])
    | cons c cs => rfl
  | cons a as ih =>
    cases l2 with
    | nil => exact absurd h12 (by simp [strLtB])
    | cons b bs =>
      cases l3 with
      | nil => exact absurd h23 (by simp [strLtB])
      | cons c cs =>
        rcases lt_trichotomy a b with hab | hab | hab
        · rcases lt_trichotomy b c with hbc | hbc | hbc
          · simp [strLtB, lt_trans hab hbc]
          · subst hbc
            simp [strLtB, hab]
          · simp [strLtB, hbc, hbc.asymm] at h23
        · subst hab
          simp only [strLtB, lt_self_iff_false, if_false] at h12
          rcases lt_trichotomy a c with hac | hac | hac
          · simp [strLtB, hac]
          · subst hac
            simp only [strLtB, lt_self_iff_false, if_false] at h23 ⊢
            exact ih bs cs h12 h23
          · simp [strLtB, hac, hac.asymm] at h23
        · simp [strLtB, hab, hab.asymm] at h12

theorem strLtB_connex (l1 l2 : List Char) (h12 : strLtB l1 l2 = false)
    (h21 : strLtB l2 l1 = false) : l1 = l2 := by
  induction l1 generalizing l2 with
  | nil =>
    cases l2 with
    | nil => rfl
    | cons b bs => exact absurd h12 (by simp [strLtB])
  | cons a as ih =>
    cases l2 with
    | nil => exact absurd h21 (by simp [strLtB])
    | cons b bs =>
      rcases lt_trichotomy a b with hab | hab | hab
      · simp [strLtB, hab] at h12
      · subst hab
        simp only [strLtB, lt_self_iff_false, if_false] at h12 h21
        rw [ih bs h12 h21]
      · simp [strLtB, hab] at h21

theorem strLe_refl (a : String) : strLe a a := strLtB_irrefl a.data

instance : IsTotal String strLe :=
  ⟨fun a b => by
    cases h : strLtB a.data b.data with
    | false => exact Or.inr h
    | true => exact Or.inl (strLtB_asymm _ _ h)⟩

instance : IsTrans String strLe :=
  ⟨fun a b c hab hbc => by
    cases h : strLtB c.data a.data with
    | false => exact h
    | true =>
      exfalso
      have hbc2 : strLtB c.data b.data = false := hbc
      cases h2 : strLtB a.data b.data with
      | true =>
        have h3 := strLtB_trans _ _ _ h h2
        rw [h3] at hbc2
        exact nomatch hbc2
      | false =>
        have hab2 : a.data = b.data := strLtB_connex _ _ h2 hab
        rw [hab2] at h
        rw [h] at hbc2
        exact nomatch hbc2⟩

/-! The cumulative time series: lookup lemmas for the running-total map. -/

theorem addCum_lookup_self (c : List (String × Nat)) (id : String) (n : Nat) :
    (addCum c id n).lookup id = some ((c.lookup id).getD 0 + n) := by
  induction c with
  | nil => simp [addCum, List.lookup]
  | cons p rest ih =>
    obtain ⟨k, v⟩ := p
    by_cases h : k = id
    · subst h
      simp [addCum, List.lookup]
    · have h2 : ¬id = k := fun hh => h hh.symm
      have hb : (id == k) = false := beq_false_of_ne h2
      simp [addCum, h, hb, List.lookup, ih]

theorem addCum_lookup_other (c : List (String × Nat)) (id id' : String) (n : Nat)
    (h : id ≠ id') :
    (addCum c id' n).lookup id = c.lookup id := by
  induction c with
  | nil =>
    have hb : (id == id') = false := beq_false_of_ne h
    simp [addCum, List.lookup, hb]
  | cons p rest ih =>
    obtain ⟨k, v⟩ := p
    by_cases hk : k = id'
    · subst hk
      have hb : (id == k) = false := beq_false_of_ne h
      simp [addCum, List.lookup, hb]
    · simp [addCum, hk, List.lookup, ih]

theorem stepDay_value_le (dd : List (String × Nat)) :
    ∀ (cum : List (String × Nat)) (id : String),
      (cum.lookup id).getD 0 ≤ ((stepDay cum dd).lookup id).getD 0 := by
  induction dd with
  | nil => intro cum id; exact le_refl _
  | cons q rest ih =>
    intro cum id
    have h1 : (cum.lookup id).getD 0
        ≤ ((addCum cum q.1 q.2).lookup id).getD 0 := by
      by_cases h : id = q.1
      · subst h
        rw [addCum_lookup_self]
        exact Nat.le_add_right _ _
      · rw [addCum_lookup_other _ _ _ _ h]
    exact le_trans h1 (ih (addCum cum q.1 q.2) id)

theorem stepDay_lookup_isSome (dd : List (String × Nat)) :
    ∀ (cum : List (String × Nat)) (id : String),
      (cum.lookup id).isSome = true →
      ((stepDay cum dd).lookup id).isSome = true := by
  induction dd with
  | nil => intro cum id h; exact h
  | cons q rest ih =>
    intro cum id h
    apply ih
    by_cases he : id = q.1
    · subst he
      rw [addCum_lookup_self]
      rfl
    · rw [addCum_lookup_other _ _ _ _ he]
      exact h

theorem stepDay_lookup_of_notmem (dd : List (String × Nat)) :
    ∀ (cum : List (String × Nat)) (id : String), (∀ q ∈ dd, q.1 ≠ id) →
      (stepDay cum dd).lookup id = cum.lookup id := by
  induction dd with
  | nil => intro cum id _; rfl
  | cons q rest ih =>
    intro cum id h
    have h1 : (stepDay (addCum cum q.1 q.2) rest).lookup id
        = (addCum cum q.1 q.2).lookup id :=
      ih _ _ fun x hx => h x (List.mem_cons_of_mem _ hx)
    have h2 : (addCum cum q.1 q.2).lookup id = cum.lookup id :=
      addCum_lookup_other _ _ _ _
        fun hh => h q (List.mem_cons_self _ _) hh.symm
    exact h1.trans h2

theorem lookup_map_zero (l : List String) (id : String) (h : id ∈ l) :
    (l.map fun k => (k, 0)).lookup id = some 0 := by
  induction l with
  | nil => cases h
  | cons k rest ih =>
    by_cases hk : id = k
    · subst hk
      simp [List.lookup]
    · rcases List.mem_cons.mp h with heq | hm
      · exact absurd heq hk
      · have hb : (id == k) = false := beq_false_of_ne hk
        simp [List.lookup, hb, ih hm]

theorem buildPoints_map_date (daily : List (String × List (String × Nat))) :
    ∀ (ds : List String) (cum : List (String × Nat)),
      (buildPoints daily ds cum).map (fun p => p.date) = ds := by
  intro ds
  induction ds with
  | nil => intro cum; rfl
  | cons d ds ih =>
    intro cum
    simp only [buildPoints, List.map_cons, ih]

theorem buildPoints_lookup_isSome (daily : List (String × List (String × Nat))) :
    ∀ (ds : List String) (cum : List (String × Nat)) (p : TimePoint),
      p ∈ buildPoints daily ds cum →
      ∀ id : String, (cum.lookup id).isSome = true →
      (p.perItem.lookup id).isSome = true := by
  intro ds
  induction ds with
  | nil => intro cum p hp; cases hp
  | cons d ds ih =>
    intro cum p hp id h
    rcases List.mem_cons.mp hp with heq | hm
    · subst heq
      exact stepDay_lookup_isSome _ _ _ h
    · exact ih _ p hm id (stepDay_lookup_isSome _ _ _ h)

theorem buildPoints_value_le (daily : List (String × List (String × Nat))) :
    ∀ (ds : List String) (cum : List (String × Nat)) (p : TimePoint),
      p ∈ buildPoints daily ds cum →
      ∀ id : String,
      (cum.lookup id).getD 0 ≤ (p.perItem.lookup id).getD 0 := by
  intro ds
  induction ds with
  | nil => intro cum p hp; cases hp
  | cons d ds ih =>
    intro cum p hp id
    rcases List.mem_cons.mp hp with heq | hm
    · subst heq
      exact stepDay_value_le _ _ _
    · exact le_trans (stepDay_value_le _ cum id) (ih _ p hm id)

theorem buildPoints_pairwise_value (daily : List (String × List (String × Nat))) :
    ∀ (ds : List String) (cum : List (String × Nat)),
      (buildPoints daily ds cum).Pairwise
        (fun a b => ∀ id : String,
          (a.perItem.lookup id).getD 0 ≤ (b.perItem.lookup id).getD 0) := by
  intro ds
  induction ds with
  | nil => intro cum; exact List.Pairwise.nil
  | cons d ds ih =>
    intro cum
    refine List.Pairwise.cons ?_ (ih _)
    intro b hb id
    exact buildPoints_value_le daily ds _ b hb id

theorem buildPoints_zero (daily : List (String × List (String × Nat)))
    (id : String) :
    ∀ (ds : List String) (cum : List (String × Nat)) (p : TimePoint),
      p ∈ buildPoints daily ds cum →
      ds.Pairwise strLe →
      cum.lookup id = some 0 →
      (∀ d ∈ ds, strLe d p.date → ∀ q ∈ (daily.lookup d).getD [], q.1 ≠ id) →
      p.perItem.lookup id = some 0 := by
  intro ds
  induction ds with
  | nil => intro cum p hp; cases hp
  | cons d ds ih =>
    intro cum p hp hs h0 hnot
    rcases List.mem_cons.mp hp with heq | hm
    · subst heq
      have hdd : ∀ q ∈ (daily.lookup d).getD [], q.1 ≠ id :=
        hnot d (List.mem_cons_self _ _) (strLe_refl d)
      show (stepDay cum ((daily.lookup d).getD [])).lookup id = some 0
      rw [stepDay_lookup_of_notmem _ _ _ hdd]
      exact h0
    · have hd_le : strLe d p.date := by
        have hmem : p.date ∈ ds := by
          rw [← buildPoints_map_date daily ds
            (stepDay cum ((daily.lookup d).getD []))]
          exact List.mem_map_of_mem _ hm
        exact (List.pairwise_cons.mp hs).1 _ hmem
      have hdd : ∀ q ∈ (daily.lookup d).getD [], q.1 ≠ id :=
        hnot d (List.mem_cons_self _ _) hd_le
      refine ih _ p hm (List.pairwise_cons.mp hs).2 ?_ ?_
      · rw [stepDay_lookup_of_notmem _ _ _ hdd]
        exact h0
      · intro d' hd' hle q hq
        exact hnot d' (List.mem_cons_of_mem _ hd') hle q hq

theorem sortDates_pairwise (l : List String) :
    (sortDates l).Pairwise strLe :=
  List.sorted_insertionSort _ l

theorem downloadsOverTime_pairwise_date (rows : List DownloadRow) :
    (downloadsOverTime rows).Pairwise (fun a b => strLe a.date b.date) := by
  have h1 := sortDates_pairwise ((episodeDailyMap rows).map Prod.fst)
  rw [← buildPoints_map_date (episodeDailyMap rows)
    (sortDates ((episodeDailyMap rows).map Prod.fst))
    (initCum (episodeDailyMap rows))] at h1
  exact List.pairwise_map.mp h1

theorem downloadsOverTime_pairwise_value (rows : List DownloadRow) :
    (downloadsOverTime rows).Pairwise
      (fun a b => ∀ id : String,
        (a.perItem.lookup id).getD 0 ≤ (b.perItem.lookup id).getD 0) :=
  buildPoints_pairwise_value _ _ _

/-- C3: every item identity occurring in any day bucket appears as a key in
every emitted time-series point; and its value is `0` at every point such
that no day bucket of date up to that point's date contains the item (in
particular at all points preceding the item's first download). -/
theorem timeseries_complete (rows : List DownloadRow) :
    (∀ p ∈ downloadsOverTime rows, ∀ id ∈ allEpisodeIds (episodeDailyMap rows),
      (p.perItem.lookup id).isSome = true) ∧
    (∀ p ∈ downloadsOverTime rows, ∀ id ∈ allEpisodeIds (episodeDailyMap rows),
      (∀ d ∈ (episodeDailyMap rows).map Prod.fst, strLe d p.date →
        ∀ q ∈ ((episodeDailyMap rows).lookup d).getD [], q.1 ≠ id) →
      p.perItem.lookup id = some 0) := by
  constructor
  · intro p hp id hid
    refine buildPoints_lookup_isSome _ _ _ p hp id ?_
    show ((initCum (episodeDailyMap rows)).lookup id).isSome = true
    rw [initCum, lookup_map_zero _ _ hid]
    rfl
  · intro p hp id hid hnot
    refine buildPoints_zero _ id _ _ p hp (sortDates_pairwise _) ?_ ?_
    · show (initCum (episodeDailyMap rows)).lookup id = some 0
      rw [initCum, lookup_map_zero _ _ hid]
    · intro d hd hle q hq
      have hd2 : d ∈ (episodeDailyMap rows).map Prod.fst :=
        (List.mem_insertionSort _).mp hd
      exact hnot d hd2 hle q hq

/-- Witness for C3: on two rows with items `e1` (day 1) and `e2` (day 2), the
day-1 point carries key `e2` with value `0`. -/
theorem timeseries_complete_witness :
    (TimePoint.mk "2024-01-01" [("e1", 1), ("e2", 0)]).perItem.lookup "e2"
      = some 0 :=
  (timeseries_complete [tRow1, tRow2]).2
    ⟨"2024-01-01", [("e1", 1), ("e2", 0)]⟩ (by decide) "e2" (by decide)
    (by decide)

/-- C4: along the emitted time series, for any two points whose dates are
ordered, every item's cumulative value at the earlier date is at most its
value at the later date. -/
theorem timeseries_monotone (rows : List DownloadRow) (p q : TimePoint)
    (hp : p ∈ downloadsOverTime rows) (hq : q ∈ downloadsOverTime rows)
    (hlt : strLt p.date q.date) (id : String) :
    (p.perItem.lookup id).getD 0 ≤ (q.perItem.lookup id).getD 0 := by
  have PV := downloadsOverTime_pairwise_value rows
  have PD := downloadsOverTime_pairwise_date rows
  rw [List.pairwise_iff_getElem] at PV PD
  obtain ⟨i, hi, hpi⟩ := List.mem_iff_getElem.mp hp
  obtain ⟨j, hj, hqj⟩ := List.mem_iff_getElem.mp hq
  rcases Nat.lt_trichotomy i j with hij | hij | hij
  · have h := PV i j hi hj hij
    rw [hpi, hqj] at h
    exact h id
  · exfalso
    subst hij
    have hpq : p = q := hpi.symm.trans hqj
    rw [hpq] at hlt
    have h1 : strLtB q.date.data q.date.data = true := hlt
    rw [strLtB_irrefl] at h1
    exact nomatch h1
  · exfalso
    have h := PD j i hj hi hij
    rw [hpi, hqj] at h
    have h1 : strLtB p.date.data q.date.data = true := hlt
    have h2 : strLtB p.date.data q.date.data = false := h
    rw [h1] at h2
    exact nomatch h2

/-- Witness for C4 at the two concrete day points of `tRow1`/`tRow2`. -/
theorem timeseries_monotone_witness :
    ((TimePoint.mk "2024-01-01" [("e1", 1), ("e2", 0)]).perItem.lookup
      "e1").getD 0
      ≤ ((TimePoint.mk "2024-01-02" [("e1", 1), ("e2", 1)]).perItem.lookup
      "e1").getD 0 :=
  timeseries_monotone [tRow1, tRow2] _ _ (by decide) (by decide) (by decide)
    "e1"

end Podstr
